import Mathlib

/-!
Shallow embedding of the CSV batch-integrity checker (`checker.go`) of the
go-ObuDAte repository, together with theorems settling the frozen claims
about its validation engine and run orchestrator.

The embedding follows the Go source directly:
  * `Config`, `Stats`, `CheckResult` mirror the structs of the same names;
  * `RunState` makes the two identifier sets (`seenIDs`, `errorIDs`) of the
    `Processor` explicit, as lists of strings with membership testing
    (`map[string]bool` in Go);
  * `goParseInt64` embeds `strconv.ParseInt(s, 10, 64)`;
  * `validateRow` embeds `Processor.validateRow`, returning the
    `CheckResult` together with the updated `RunState`;
  * `processRows` / `processFile` embed `Processor.processFile`, with the
    byte stream abstracted as the list of reads the CSV reader performs;
  * `sortEntries` / `runLoop` / `Run` embed `Processor.Run`.  `runLoop`
    additionally returns the list of filenames processed, in order, so that
    the observable processing order can be stated.
-/

/-- Mirrors Go `Config`.  `flagColIdx` is carried by the program's
configuration but never consulted by the rule chain. -/
structure Config where
  idColIdx : Nat
  flagColIdx : Int
  insertF : String
  updateF : String
  minID : Int
  deriving Repr, DecidableEq

/-- Mirrors Go `Stats`. -/
structure Stats where
  insertErrors : Nat
  updateErrors : Nat
  deriving Repr, DecidableEq

/-- Mirrors Go `CheckResult`. -/
structure CheckResult where
  isError : Bool
  message : String
  deriving Repr, DecidableEq

/-- The mutable identifier state of the Go `Processor`: `seenIDs` and
`errorIDs` (`map[string]bool`, used only for membership). -/
structure RunState where
  seenIDs : List String
  errorIDs : List String
  deriving Repr, DecidableEq

/-- The empty state produced by `NewProcessor`. -/
def RunState.init : RunState := ⟨[], []⟩

/-- Decimal digit value of a character, `none` if not `'0'..'9'`. -/
def digitVal (c : Char) : Option Nat :=
  if '0' ≤ c ∧ c ≤ '9' then some (c.toNat - '0'.toNat) else none

/-- Parse a nonempty all-digit character list as a natural number
(the digit loop of Go `strconv.ParseInt`). -/
def parseDigits : List Char → Nat → Option Nat
  | [], acc => some acc
  | c :: rest, acc =>
    match digitVal c with
    | some d => parseDigits rest (acc * 10 + d)
    | none => none

/-- Embeds Go `strconv.ParseInt(s, 10, 64)`: optional sign, at least one
digit, all characters digits, and the value within the signed 64-bit range;
`none` corresponds to a non-nil `err` (syntax or range error). -/
def goParseInt64 (s : String) : Option Int :=
  match s.data with
  | [] => none
  | '+' :: rest =>
    if rest = [] then none else
    match parseDigits rest 0 with
    | some n => if n ≤ 2 ^ 63 - 1 then some (n : Int) else none
    | none => none
  | '-' :: rest =>
    if rest = [] then none else
    match parseDigits rest 0 with
    | some n => if n ≤ 2 ^ 63 then some (-(n : Int)) else none
    | none => none
  | cs =>
    match parseDigits cs 0 with
    | some n => if n ≤ 2 ^ 63 - 1 then some (n : Int) else none
    | none => none

/-- Embeds `Processor.validateRow`: the rule chain applied to one row,
returning the classification and the updated identifier state. -/
def validateRow (cfg : Config) (st : RunState) (record : List String)
    (isInsert : Bool) : CheckResult × RunState :=
  -- 列不足チェック: if len(record) <= p.cfg.IDColIdx, non-error, no access
  if record.length ≤ cfg.idColIdx then
    (⟨false, ""⟩, st)
  else
    let idStr := record.getD cfg.idColIdx ""
    -- 共通チェック: already-errored identifier
    if st.errorIDs.contains idStr then
      (⟨true, "エラー対象者の2回目以降"⟩, st)
    else if isInsert then
      -- 1. duplicate within insert files
      if st.seenIDs.contains idStr then
        (⟨true, "追加ファイルで2回目"⟩,
          { st with errorIDs := idStr :: st.errorIDs })
      else
        -- 2. minimum-identifier check over int64
        match goParseInt64 idStr with
        | some idInt =>
          if idInt < cfg.minID then
            (⟨true, "再転入エラー"⟩,
              { st with errorIDs := idStr :: st.errorIDs })
          else
            -- acceptance: record into seenIDs
            (⟨false, ""⟩, { st with seenIDs := idStr :: st.seenIDs })
        | none =>
          -- parse failure: check skipped (warning logged), acceptance
          (⟨false, ""⟩, { st with seenIDs := idStr :: st.seenIDs })
    else
      -- update-file rule: unregistered identifiers are ignored
      (⟨false, ""⟩, st)

/-- Strict byte-wise lexicographic order on character lists: the order Go's
`<` on strings computes (UTF-8 byte order coincides with code-point
order). -/
def charListLt : List Char → List Char → Bool
  | [], [] => false
  | [], _ :: _ => true
  | _ :: _, [] => false
  | a :: as, b :: bs =>
    if a.toNat < b.toNat then true
    else if b.toNat < a.toNat then false
    else charListLt as bs

/-- Go's `<` on strings. -/
def strLt (a b : String) : Bool := charListLt a.data b.data

/-- Whether the first list starts with the second. -/
def charListStarts : List Char → List Char → Bool
  | _, [] => true
  | [], _ :: _ => false
  | a :: as, b :: bs => a.toNat == b.toNat && charListStarts as bs

/-- Go `strings.HasPrefix(s, p)`. -/
def strStarts (s p : String) : Bool := charListStarts s.data p.data

/-- One read performed by the CSV reader on an open file: either a decoded
record or a decode failure with its message. End of file is the end of the
list. -/
inductive RowRead where
  | row (fields : List String)
  | readErr (cause : String)
  deriving Repr, DecidableEq

/-- Result of `FileSystem.Open` on a file: either an open failure with its
message, or the sequence of reads the CSV reader will produce (the first
successful read is the header). -/
inductive OpenResult where
  | failure (cause : String)
  | opened (reads : List RowRead)
  deriving Repr, DecidableEq

/-- A directory entry as returned by `FileSystem.ReadDir`, paired with what
opening it would yield. -/
structure DirEntry where
  name : String
  isDir : Bool
  content : OpenResult
  deriving Repr, DecidableEq

/-- A failure of `Processor.processFile`. -/
inductive FileError where
  | openFail (cause : String)
  | headerFail (cause : String)
  | decodeFail (line : Nat) (cause : String)
  deriving Repr, DecidableEq

/-- A failure of `Processor.Run`: a per-file failure wrapped with the
filename (`"failed to process file %s: %w"`). -/
inductive RunError where
  | processFail (file : String) (e : FileError)
  deriving Repr, DecidableEq

/-- The data-row loop of `Processor.processFile`: `rowNum` counts rows read
so far (header included), `errCount` the error rows. A decode failure
aborts with the 1-based line number `rowNum + 1`. -/
def processRows (cfg : Config) (isInsert : Bool) :
    List RowRead → RunState → Nat → Nat → Except FileError (Nat × RunState)
  | [], st, _, errCount => .ok (errCount, st)
  | .readErr cause :: _, _, rowNum, _ =>
    .error (.decodeFail (rowNum + 1) cause)
  | .row fields :: rest, st, rowNum, errCount =>
    let res := validateRow cfg st fields isInsert
    processRows cfg isInsert rest res.2 (rowNum + 1)
      (if res.1.isError then errCount + 1 else errCount)

/-- Embeds `Processor.processFile`: open the file, skip the header (an
empty file counts as zero errors), then validate each data row. -/
def processFile (cfg : Config) (isInsert : Bool) (st : RunState)
    (content : OpenResult) : Except FileError (Nat × RunState) :=
  match content with
  | .failure cause => .error (.openFail cause)
  | .opened [] => .ok (0, st)
  | .opened (.readErr cause :: _) => .error (.headerFail cause)
  | .opened (.row _ :: rest) => processRows cfg isInsert rest st 1 0

/-- Insertion of an entry into a name-sorted list, by the strict
byte-wise string order Go's `sort.Slice` comparator uses. -/
def insertByName (x : DirEntry) : List DirEntry → List DirEntry
  | [] => [x]
  | y :: ys => if strLt x.name y.name then x :: y :: ys else y :: insertByName x ys

/-- The sort of `Processor.Run`: directory entries in ascending byte-wise
order of filename (UTF-8 byte order coincides with the code-point order of
Lean's `String` comparison). -/
def sortEntries : List DirEntry → List DirEntry
  | [] => []
  | x :: xs => insertByName x (sortEntries xs)

/-- Go `filepath.Ext`: the suffix starting at the final dot, `""` if the
name has no dot. -/
def goExt (s : String) : String :=
  let rev := s.data.reverse
  let pre := rev.takeWhile (fun c => c ≠ '.')
  if pre.length = rev.length then "" else String.mk ('.' :: pre.reverse)

/-- The per-entry loop of `Processor.Run` over the already-sorted entries:
skips directories, non-`.csv` names, and names matching neither prefix;
classifies a file as insert if its name starts with the insert prefix,
else update; aborts on the first file failure, discarding statistics.
Alongside the Go function's result it returns the names of the files
handed to `processFile`, in order, so the processing order is observable. -/
def runLoop (cfg : Config) :
    List DirEntry → RunState → Stats → Except RunError Stats × List String
  | [], _, stats => (.ok stats, [])
  | e :: rest, st, stats =>
    if e.isDir then runLoop cfg rest st stats
    else if goExt e.name ≠ ".csv" then runLoop cfg rest st stats
    else
      let isInsert := strStarts e.name cfg.insertF
      let isUpdate := strStarts e.name cfg.updateF
      if !isInsert && !isUpdate then runLoop cfg rest st stats
      else
        match processFile cfg isInsert st e.content with
        | .error fe => (.error (.processFail e.name fe), [e.name])
        | .ok (cnt, st') =>
          let stats' :=
            if isInsert then { stats with insertErrors := stats.insertErrors + cnt }
            else { stats with updateErrors := stats.updateErrors + cnt }
          let r := runLoop cfg rest st' stats'
          (r.1, e.name :: r.2)

/-- Embeds `Processor.Run` (given the directory listing): sort entries by
name, run the loop from the fresh state, return the statistics or the
first failure. -/
def Run (cfg : Config) (entries : List DirEntry) : Except RunError Stats :=
  (runLoop cfg (sortEntries entries) RunState.init ⟨0, 0⟩).1

/-- The filenames `Run` hands to `processFile`, in processing order. -/
def runOrder (cfg : Config) (entries : List DirEntry) : List String :=
  (runLoop cfg (sortEntries entries) RunState.init ⟨0, 0⟩).2

instance {ε α : Type} [DecidableEq ε] [DecidableEq α] : DecidableEq (Except ε α)
  | .error e, .error f =>
    if h : e = f then .isTrue (h ▸ rfl)
    else .isFalse (fun hh => h (Except.error.inj hh))
  | .error _, .ok _ => .isFalse (fun hh => Except.noConfusion hh)
  | .ok _, .error _ => .isFalse (fun hh => Except.noConfusion hh)
  | .ok a, .ok b =>
    if h : a = b then .isTrue (h ▸ rfl)
    else .isFalse (fun hh => h (Except.ok.inj hh))

/-- Configuration used by the concrete scenarios below: identifier in
column 0, insert prefix `INS`, update prefix `UPD`, minimum 100 (the
configuration of most of the repository's tests). -/
def cfgStd : Config := ⟨0, 1, "INS", "UPD", 100⟩

/-- Configuration with minimum 0, for the first-occurrence scenarios. -/
def cfgZero : Config := ⟨0, 1, "INS", "UPD", 0⟩

/-- Configuration with a minimum beyond 32-bit range. -/
def cfgBig : Config := ⟨0, 1, "INS", "UPD", 5000000000⟩

/-- Configuration where the update prefix extends the insert prefix, so a
name such as `INS_2.csv` matches both. -/
def cfgOverlap : Config := ⟨0, 1, "INS", "INS_2", 0⟩

/-- The three-file listing of the byte-wise ordering scenario, deliberately
given out of order. -/
def entriesC6 : List DirEntry :=
  [⟨"INS_2.csv", false, .opened [.row ["ID"], .row ["102"]]⟩,
   ⟨"INS_1.csv", false, .opened [.row ["ID"], .row ["100"]]⟩,
   ⟨"INS_10.csv", false, .opened [.row ["ID"], .row ["101"]]⟩]

/-- Insert file carrying identifier `5`, then an update file carrying the
same identifier. -/
def entriesInsThenUpd : List DirEntry :=
  [⟨"INS_1.csv", false, .opened [.row ["ID"], .row ["5"]]⟩,
   ⟨"UPD_1.csv", false, .opened [.row ["ID"], .row ["5"]]⟩]

/-! ## Helper lemmas -/

theorem contains_iff_mem_str (l : List String) (a : String) :
    l.contains a = true ↔ a ∈ l := by
  simp [List.contains, List.elem_iff]

theorem contains_eq_false_iff_str (l : List String) (a : String) :
    l.contains a = false ↔ a ∉ l := by
  rw [← contains_iff_mem_str]
  cases h : l.contains a <;> simp

/-! ## C8: rows too short to reach the identifier column -/

/-- C8: a row whose field list does not reach the configured identifier
column is classified as non-error and leaves both identifier sets
untouched; the identifier column is never read. -/
theorem short_row_is_ignored (cfg : Config) (st : RunState)
    (record : List String) (isInsert : Bool)
    (h : record.length ≤ cfg.idColIdx) :
    validateRow cfg st record isInsert = (⟨false, ""⟩, st) := by
  simp [validateRow, h]

theorem short_row_is_ignored_witness :
    (["100"] : List String).length ≤ 3 ∧
      validateRow ⟨3, 1, "INS", "UPD", 100⟩ ⟨["a"], ["b"]⟩ ["100"] true
        = (⟨false, ""⟩, ⟨["a"], ["b"]⟩) :=
  ⟨by decide, short_row_is_ignored ⟨3, 1, "INS", "UPD", 100⟩ ⟨["a"], ["b"]⟩
    ["100"] true (by decide)⟩

theorem validateRow_repeat (cfg : Config) (st : RunState) (record : List String)
    (ins : Bool) (hlen : ¬ record.length ≤ cfg.idColIdx)
    (herr : st.errorIDs.contains (record.getD cfg.idColIdx "") = true) :
    validateRow cfg st record ins = (⟨true, "エラー対象者の2回目以降"⟩, st) := by
  unfold validateRow
  rw [if_neg hlen]
  dsimp only
  rw [if_pos herr]

theorem validateRow_dup (cfg : Config) (st : RunState) (record : List String)
    (hlen : ¬ record.length ≤ cfg.idColIdx)
    (herr : st.errorIDs.contains (record.getD cfg.idColIdx "") = false)
    (hseen : st.seenIDs.contains (record.getD cfg.idColIdx "") = true) :
    validateRow cfg st record true
      = (⟨true, "追加ファイルで2回目"⟩,
         { st with errorIDs := record.getD cfg.idColIdx "" :: st.errorIDs }) := by
  unfold validateRow
  rw [if_neg hlen]
  dsimp only
  rw [if_neg (by rw [herr]; simp), if_pos rfl, if_pos hseen]

theorem validateRow_min (cfg : Config) (st : RunState) (record : List String)
    (idInt : Int) (hlen : ¬ record.length ≤ cfg.idColIdx)
    (herr : st.errorIDs.contains (record.getD cfg.idColIdx "") = false)
    (hseen : st.seenIDs.contains (record.getD cfg.idColIdx "") = false)
    (hp : goParseInt64 (record.getD cfg.idColIdx "") = some idInt)
    (hmin : idInt < cfg.minID) :
    validateRow cfg st record true
      = (⟨true, "再転入エラー"⟩,
         { st with errorIDs := record.getD cfg.idColIdx "" :: st.errorIDs }) := by
  unfold validateRow
  rw [if_neg hlen]
  dsimp only
  rw [if_neg (by rw [herr]; simp), if_pos rfl, if_neg (by rw [hseen]; simp), hp]
  dsimp only
  rw [if_pos hmin]

theorem validateRow_accept_parsed (cfg : Config) (st : RunState)
    (record : List String) (idInt : Int)
    (hlen : ¬ record.length ≤ cfg.idColIdx)
    (herr : st.errorIDs.contains (record.getD cfg.idColIdx "") = false)
    (hseen : st.seenIDs.contains (record.getD cfg.idColIdx "") = false)
    (hp : goParseInt64 (record.getD cfg.idColIdx "") = some idInt)
    (hmin : ¬ idInt < cfg.minID) :
    validateRow cfg st record true
      = (⟨false, ""⟩,
         { st with seenIDs := record.getD cfg.idColIdx "" :: st.seenIDs }) := by
  unfold validateRow
  rw [if_neg hlen]
  dsimp only
  rw [if_neg (by rw [herr]; simp), if_pos rfl, if_neg (by rw [hseen]; simp), hp]
  dsimp only
  rw [if_neg hmin]

theorem validateRow_accept_unparsed (cfg : Config) (st : RunState)
    (record : List String)
    (hlen : ¬ record.length ≤ cfg.idColIdx)
    (herr : st.errorIDs.contains (record.getD cfg.idColIdx "") = false)
    (hseen : st.seenIDs.contains (record.getD cfg.idColIdx "") = false)
    (hp : goParseInt64 (record.getD cfg.idColIdx "") = none) :
    validateRow cfg st record true
      = (⟨false, ""⟩,
         { st with seenIDs := record.getD cfg.idColIdx "" :: st.seenIDs }) := by
  unfold validateRow
  rw [if_neg hlen]
  dsimp only
  rw [if_neg (by rw [herr]; simp), if_pos rfl, if_neg (by rw [hseen]; simp), hp]

theorem validateRow_update (cfg : Config) (st : RunState) (record : List String)
    (hlen : ¬ record.length ≤ cfg.idColIdx)
    (herr : st.errorIDs.contains (record.getD cfg.idColIdx "") = false) :
    validateRow cfg st record false = (⟨false, ""⟩, st) := by
  unfold validateRow
  rw [if_neg hlen]
  dsimp only
  rw [if_neg (by rw [herr]; simp)]
  rfl

/-! ## C1: errored identifiers are sticky and pre-empt every other rule -/

/-- C1: Errored-Identifiers only ever grows across a validation call; a row
classified as an error for any reason other than the repeat reason puts its
identifier into Errored-Identifiers; and once the identifier of a row (with
the identifier column present) is in Errored-Identifiers, the row is
classified as an error with exactly the message エラー対象者の2回目以降,
whether the file is insert or update, with the state left unchanged. -/
theorem errored_id_is_sticky (cfg : Config) (st : RunState)
    (record : List String) (isInsert : Bool) :
    st.errorIDs ⊆ (validateRow cfg st record isInsert).2.errorIDs ∧
    ((validateRow cfg st record isInsert).1.isError = true →
      (validateRow cfg st record isInsert).1.message ≠ "エラー対象者の2回目以降" →
      record.getD cfg.idColIdx "" ∈ (validateRow cfg st record isInsert).2.errorIDs) ∧
    (cfg.idColIdx < record.length →
      record.getD cfg.idColIdx "" ∈ st.errorIDs →
      validateRow cfg st record isInsert
        = (⟨true, "エラー対象者の2回目以降"⟩, st)) := by
  by_cases hlen : record.length ≤ cfg.idColIdx
  · rw [show validateRow cfg st record isInsert = (⟨false, ""⟩, st) from by
      simp [validateRow, hlen]]
    exact ⟨List.Subset.refl _, fun h => Bool.noConfusion h,
      fun hlt _ => absurd hlt (by omega)⟩
  · by_cases herr : st.errorIDs.contains (record.getD cfg.idColIdx "") = true
    · rw [validateRow_repeat cfg st record isInsert hlen herr]
      exact ⟨List.Subset.refl _, fun _ hm => absurd rfl hm, fun _ _ => rfl⟩
    · have herrF : st.errorIDs.contains (record.getD cfg.idColIdx "") = false := by
        rwa [Bool.not_eq_true] at herr
      have herr' : record.getD cfg.idColIdx "" ∉ st.errorIDs :=
        (contains_eq_false_iff_str _ _).mp herrF
      cases isInsert with
      | false =>
        rw [validateRow_update cfg st record hlen herrF]
        exact ⟨List.Subset.refl _, fun h => Bool.noConfusion h,
          fun _ hm => absurd hm herr'⟩
      | true =>
        by_cases hseen : st.seenIDs.contains (record.getD cfg.idColIdx "") = true
        · rw [validateRow_dup cfg st record hlen herrF hseen]
          exact ⟨List.subset_cons_self _ _, fun _ _ => List.mem_cons_self _ _,
            fun _ hm => absurd hm herr'⟩
        · have hseenF : st.seenIDs.contains (record.getD cfg.idColIdx "") = false := by
            rwa [Bool.not_eq_true] at hseen
          cases hp : goParseInt64 (record.getD cfg.idColIdx "") with
          | none =>
            rw [validateRow_accept_unparsed cfg st record hlen herrF hseenF hp]
            exact ⟨List.Subset.refl _, fun h => Bool.noConfusion h,
              fun _ hm => absurd hm herr'⟩
          | some idInt =>
            by_cases hmin : idInt < cfg.minID
            · rw [validateRow_min cfg st record idInt hlen herrF hseenF hp hmin]
              exact ⟨List.subset_cons_self _ _, fun _ _ => List.mem_cons_self _ _,
                fun _ hm => absurd hm herr'⟩
            · rw [validateRow_accept_parsed cfg st record idInt hlen herrF hseenF hp hmin]
              exact ⟨List.Subset.refl _, fun h => Bool.noConfusion h,
                fun _ hm => absurd hm herr'⟩

theorem errored_id_is_sticky_witness :
    validateRow cfgStd ⟨[], ["5"]⟩ ["5"] false
      = (⟨true, "エラー対象者の2回目以降"⟩, ⟨[], ["5"]⟩) :=
  (errored_id_is_sticky cfgStd ⟨[], ["5"]⟩ ["5"] false).2.2
    (by decide) (by decide)

theorem validateRow_short_eq (cfg : Config) (st : RunState)
    (record : List String) (ins : Bool)
    (h : record.length ≤ cfg.idColIdx) :
    validateRow cfg st record ins = (⟨false, ""⟩, st) := by
  simp [validateRow, h]

/-! ## C2: the duplicate check is evaluated before the minimum check -/

/-- C2: an insert row whose identifier is not yet errored, is already in
Seen-Insert-Identifiers, and parses to an integer strictly below the
configured minimum is classified with the duplicate message
追加ファイルで2回目, never with the minimum-violation message. -/
theorem dup_check_precedes_min_check (cfg : Config) (st : RunState)
    (record : List String) (idInt : Int)
    (hlen : cfg.idColIdx < record.length)
    (herr : record.getD cfg.idColIdx "" ∉ st.errorIDs)
    (hseen : record.getD cfg.idColIdx "" ∈ st.seenIDs)
    (_hp : goParseInt64 (record.getD cfg.idColIdx "") = some idInt)
    (_hmin : idInt < cfg.minID) :
    validateRow cfg st record true
      = (⟨true, "追加ファイルで2回目"⟩,
         { st with errorIDs := record.getD cfg.idColIdx "" :: st.errorIDs }) :=
  validateRow_dup cfg st record (by omega)
    ((contains_eq_false_iff_str _ _).mpr herr)
    ((contains_iff_mem_str _ _).mpr hseen)

theorem dup_check_precedes_min_check_witness :
    validateRow cfgStd ⟨["50"], []⟩ ["50"] true
      = (⟨true, "追加ファイルで2回目"⟩, ⟨["50"], ["50"]⟩) :=
  dup_check_precedes_min_check cfgStd ⟨["50"], []⟩ ["50"] 50
    (by decide) (by decide) (by decide) (by decide) (by decide)

/-! ## C5: unparsable identifiers pass the minimum check and are recorded -/

/-- C5: an insert row whose identifier does not parse as a 64-bit signed
integer (and is neither errored nor seen) is classified ok, with the raw
identifier string recorded into Seen-Insert-Identifiers; a later insert
row carrying the same string (still unerrored) is then classified with the
duplicate message. -/
theorem unparsable_id_accepted_then_dup (cfg : Config) (st : RunState)
    (record : List String)
    (hlen : cfg.idColIdx < record.length)
    (herr : record.getD cfg.idColIdx "" ∉ st.errorIDs)
    (hseen : record.getD cfg.idColIdx "" ∉ st.seenIDs)
    (hp : goParseInt64 (record.getD cfg.idColIdx "") = none) :
    validateRow cfg st record true
      = (⟨false, ""⟩,
         { st with seenIDs := record.getD cfg.idColIdx "" :: st.seenIDs }) ∧
    (∀ (st' : RunState) (record' : List String),
      cfg.idColIdx < record'.length →
      record'.getD cfg.idColIdx "" = record.getD cfg.idColIdx "" →
      record.getD cfg.idColIdx "" ∈ st'.seenIDs →
      record.getD cfg.idColIdx "" ∉ st'.errorIDs →
      validateRow cfg st' record' true
        = (⟨true, "追加ファイルで2回目"⟩,
           { st' with errorIDs := record.getD cfg.idColIdx "" :: st'.errorIDs })) := by
  constructor
  · exact validateRow_accept_unparsed cfg st record (by omega)
      ((contains_eq_false_iff_str _ _).mpr herr)
      ((contains_eq_false_iff_str _ _).mpr hseen) hp
  · intro st' record' hlen' hid hse hne
    have hd := validateRow_dup cfg st' record' (by omega)
      ((contains_eq_false_iff_str _ _).mpr (by rw [hid]; exact hne))
      ((contains_iff_mem_str _ _).mpr (by rw [hid]; exact hse))
    rw [hd, hid]

theorem unparsable_id_accepted_then_dup_witness :
    validateRow cfgStd RunState.init ["ABC"] true
      = (⟨false, ""⟩, ⟨["ABC"], []⟩) ∧
    validateRow cfgStd ⟨["ABC"], []⟩ ["ABC"] true
      = (⟨true, "追加ファイルで2回目"⟩, ⟨["ABC"], ["ABC"]⟩) := by
  have h := unparsable_id_accepted_then_dup cfgStd RunState.init ["ABC"]
    (by decide) (by decide) (by decide) (by decide)
  exact ⟨h.1, h.2 ⟨["ABC"], []⟩ ["ABC"] (by decide) (by decide)
    (by decide) (by decide)⟩

/-! ## C4: update rows are pure and only insert rows feed the state -/

/-- C4: validating an update row never changes the Run State; an update
row whose identifier is not in Errored-Identifiers is classified ok; and
any growth of either identifier set comes from an insert row and consists
exactly of that row's identifier — so an identifier that never appears in
an insert row can never enter Errored-Identifiers. -/
theorem update_rows_never_mutate_state (cfg : Config) (st : RunState)
    (record : List String) :
    (validateRow cfg st record false).2 = st ∧
    (record.getD cfg.idColIdx "" ∉ st.errorIDs →
      (validateRow cfg st record false).1.isError = false) ∧
    (∀ (isInsert : Bool) (id : String),
      (id ∈ (validateRow cfg st record isInsert).2.errorIDs ∨
       id ∈ (validateRow cfg st record isInsert).2.seenIDs) →
      (id ∈ st.errorIDs ∨ id ∈ st.seenIDs) ∨
        (isInsert = true ∧ id = record.getD cfg.idColIdx "")) := by
  refine ⟨?_, ?_, ?_⟩
  · by_cases hlen : record.length ≤ cfg.idColIdx
    · rw [validateRow_short_eq cfg st record false hlen]
    · by_cases herr : st.errorIDs.contains (record.getD cfg.idColIdx "") = true
      · rw [validateRow_repeat cfg st record false hlen herr]
      · rw [validateRow_update cfg st record hlen
          (by rwa [Bool.not_eq_true] at herr)]
  · intro hne
    by_cases hlen : record.length ≤ cfg.idColIdx
    · rw [validateRow_short_eq cfg st record false hlen]
    · rw [validateRow_update cfg st record hlen
        ((contains_eq_false_iff_str _ _).mpr hne)]
  · intro ins id hm
    by_cases hlen : record.length ≤ cfg.idColIdx
    · rw [validateRow_short_eq cfg st record ins hlen] at hm
      exact Or.inl (hm.elim Or.inl Or.inr)
    · by_cases herr : st.errorIDs.contains (record.getD cfg.idColIdx "") = true
      · rw [validateRow_repeat cfg st record ins hlen herr] at hm
        exact Or.inl (hm.elim Or.inl Or.inr)
      · have herrF : st.errorIDs.contains (record.getD cfg.idColIdx "") = false := by
          rwa [Bool.not_eq_true] at herr
        cases ins with
        | false =>
          rw [validateRow_update cfg st record hlen herrF] at hm
          exact Or.inl (hm.elim Or.inl Or.inr)
        | true =>
          by_cases hseen : st.seenIDs.contains (record.getD cfg.idColIdx "") = true
          · rw [validateRow_dup cfg st record hlen herrF hseen] at hm
            rcases hm with hm | hm
            · rcases List.mem_cons.mp hm with h | h
              · exact Or.inr ⟨rfl, h⟩
              · exact Or.inl (Or.inl h)
            · exact Or.inl (Or.inr hm)
          · have hseenF : st.seenIDs.contains (record.getD cfg.idColIdx "") = false := by
              rwa [Bool.not_eq_true] at hseen
            cases hp : goParseInt64 (record.getD cfg.idColIdx "") with
            | none =>
              rw [validateRow_accept_unparsed cfg st record hlen herrF hseenF hp] at hm
              rcases hm with hm | hm
              · exact Or.inl (Or.inl hm)
              · rcases List.mem_cons.mp hm with h | h
                · exact Or.inr ⟨rfl, h⟩
                · exact Or.inl (Or.inr h)
            | some idInt =>
              by_cases hmin : idInt < cfg.minID
              · rw [validateRow_min cfg st record idInt hlen herrF hseenF hp hmin] at hm
                rcases hm with hm | hm
                · rcases List.mem_cons.mp hm with h | h
                  · exact Or.inr ⟨rfl, h⟩
                  · exact Or.inl (Or.inl h)
                · exact Or.inl (Or.inr hm)
              · rw [validateRow_accept_parsed cfg st record idInt hlen herrF hseenF hp hmin] at hm
                rcases hm with hm | hm
                · exact Or.inl (Or.inl hm)
                · rcases List.mem_cons.mp hm with h | h
                  · exact Or.inr ⟨rfl, h⟩
                  · exact Or.inl (Or.inr h)

theorem update_rows_never_mutate_state_witness :
    "999" ∉ (⟨["100"], []⟩ : RunState).errorIDs ∧
    (validateRow cfgStd ⟨["100"], []⟩ ["999", "T"] false).1.isError = false :=
  ⟨by decide, (update_rows_never_mutate_state cfgStd ⟨["100"], []⟩
    ["999", "T"]).2.1 (by decide)⟩

/-! ## C3: first occurrence ok; later occurrences
The original claim says every later occurrence of an accepted identifier,
even on an update row, is an error. The code classifies an update row
bearing a seen-but-unerrored identifier as ok, so the claim is refuted and
amended to: later insert occurrences error, later update occurrences are
ok unless the identifier has been errored. -/

/-- Counterexample to C3 as stated: identifier `5` (parseable, at or above
the minimum 0) is accepted on its first insert occurrence, yet its next
occurrence on an update row is classified ok, and a whole run consisting
of that insert file followed by that update file reports zero errors. -/
theorem subsequent_update_occurrence_is_ok_cex :
    validateRow cfgZero RunState.init ["5"] true = (⟨false, ""⟩, ⟨["5"], []⟩) ∧
    validateRow cfgZero ⟨["5"], []⟩ ["5"] false = (⟨false, ""⟩, ⟨["5"], []⟩) ∧
    Run cfgZero entriesInsThenUpd = .ok ⟨0, 0⟩ := by decide

/-- C3 (amended): the first insert occurrence of a parseable identifier at
or above the minimum is classified ok and recorded; every later insert row
bearing that identifier (now seen or errored) is classified as an error;
a later update row bearing it is classified ok as long as the identifier
has not been errored. -/
theorem first_insert_occurrence_ok_later_insert_occurrences_error
    (cfg : Config) (st : RunState) (record : List String) (idInt : Int)
    (hlen : cfg.idColIdx < record.length)
    (herr : record.getD cfg.idColIdx "" ∉ st.errorIDs)
    (hseen : record.getD cfg.idColIdx "" ∉ st.seenIDs)
    (hp : goParseInt64 (record.getD cfg.idColIdx "") = some idInt)
    (hmin : cfg.minID ≤ idInt) :
    validateRow cfg st record true
      = (⟨false, ""⟩,
         { st with seenIDs := record.getD cfg.idColIdx "" :: st.seenIDs }) ∧
    (∀ (st' : RunState) (record' : List String),
      cfg.idColIdx < record'.length →
      record'.getD cfg.idColIdx "" = record.getD cfg.idColIdx "" →
      (record.getD cfg.idColIdx "" ∈ st'.seenIDs ∨
       record.getD cfg.idColIdx "" ∈ st'.errorIDs) →
      (validateRow cfg st' record' true).1.isError = true) ∧
    (∀ (st' : RunState) (record' : List String),
      cfg.idColIdx < record'.length →
      record'.getD cfg.idColIdx "" = record.getD cfg.idColIdx "" →
      record.getD cfg.idColIdx "" ∉ st'.errorIDs →
      (validateRow cfg st' record' false).1.isError = false) := by
  refine ⟨?_, ?_, ?_⟩
  · exact validateRow_accept_parsed cfg st record idInt (by omega)
      ((contains_eq_false_iff_str _ _).mpr herr)
      ((contains_eq_false_iff_str _ _).mpr hseen) hp (by omega)
  · intro st' record' hlen' hid hmem
    by_cases herr' : st'.errorIDs.contains (record'.getD cfg.idColIdx "") = true
    · rw [validateRow_repeat cfg st' record' true (by omega) herr']
    · have herrF : st'.errorIDs.contains (record'.getD cfg.idColIdx "") = false := by
        rwa [Bool.not_eq_true] at herr'
      have hnot : record.getD cfg.idColIdx "" ∉ st'.errorIDs := by
        have := (contains_eq_false_iff_str _ _).mp herrF
        rwa [hid] at this
      have hse : record.getD cfg.idColIdx "" ∈ st'.seenIDs := by
        rcases hmem with h | h
        · exact h
        · exact absurd h hnot
      rw [validateRow_dup cfg st' record' (by omega) herrF
        ((contains_iff_mem_str _ _).mpr (by rw [hid]; exact hse))]
  · intro st' record' hlen' hid hne
    by_cases herr' : st'.errorIDs.contains (record'.getD cfg.idColIdx "") = true
    · exact absurd ((contains_iff_mem_str _ _).mp (hid ▸ herr')) hne
    · rw [validateRow_update cfg st' record' (by omega)
        (by rwa [Bool.not_eq_true] at herr')]

theorem first_insert_occurrence_ok_witness :
    validateRow cfgZero RunState.init ["5"] true
      = (⟨false, ""⟩, ⟨["5"], []⟩) ∧
    (validateRow cfgZero ⟨["5"], []⟩ ["5"] true).1.isError = true ∧
    (validateRow cfgZero ⟨["5"], []⟩ ["5"] false).1.isError = false := by
  have h := first_insert_occurrence_ok_later_insert_occurrences_error
    cfgZero RunState.init ["5"] 5 (by decide) (by decide) (by decide)
    (by decide) (by decide)
  exact ⟨h.1,
    h.2.1 ⟨["5"], []⟩ ["5"] (by decide) (by decide) (Or.inl (by decide)),
    h.2.2 ⟨["5"], []⟩ ["5"] (by decide) (by decide) (by decide)⟩

/-! ## C9: the minimum comparison is exact 64-bit integer arithmetic -/

/-- C9: with the minimum configured to 5000000000 (beyond 32-bit range),
identifier 4999999999 is flagged with the minimum-violation message while
5000000000 passes and is recorded as seen; over a whole insert file the
two rows yield exactly one error. -/
theorem min_check_uses_int64_arithmetic :
    validateRow cfgBig RunState.init ["4999999999"] true
      = (⟨true, "再転入エラー"⟩, ⟨[], ["4999999999"]⟩) ∧
    validateRow cfgBig ⟨[], ["4999999999"]⟩ ["5000000000"] true
      = (⟨false, ""⟩, ⟨["5000000000"], ["4999999999"]⟩) ∧
    processFile cfgBig true RunState.init
      (.opened [.row ["ID"], .row ["4999999999"], .row ["5000000000"]])
      = .ok (1, ⟨["5000000000"], ["4999999999"]⟩) := by decide

theorem charListLt_asymm (a b : List Char) (h : charListLt a b = true) :
    charListLt b a = false := by
  induction a generalizing b with
  | nil =>
    cases b with
    | nil => simp [charListLt] at h
    | cons y ys => simp [charListLt]
  | cons x xs ih =>
    cases b with
    | nil => simp [charListLt] at h
    | cons y ys =>
      simp only [charListLt] at h ⊢
      by_cases h1 : x.toNat < y.toNat
      · rw [if_neg (show ¬ y.toNat < x.toNat by omega), if_pos h1]
      · rw [if_neg h1] at h
        by_cases h2 : y.toNat < x.toNat
        · rw [if_pos h2] at h
          exact Bool.noConfusion h
        · rw [if_neg h2] at h
          rw [if_neg h2, if_neg h1]
          exact ih ys h

theorem charListLt_le_trans (a b c : List Char)
    (h1 : charListLt b a = false) (h2 : charListLt c b = false) :
    charListLt c a = false := by
  induction a generalizing b c with
  | nil => cases c <;> simp [charListLt]
  | cons x xs ih =>
    cases b with
    | nil => simp [charListLt] at h1
    | cons y ys =>
      cases c with
      | nil => simp [charListLt] at h2
      | cons z zs =>
        simp only [charListLt] at h1 h2 ⊢
        by_cases hyx : y.toNat < x.toNat
        · rw [if_pos hyx] at h1
          exact Bool.noConfusion h1
        · rw [if_neg hyx] at h1
          by_cases hzy : z.toNat < y.toNat
          · rw [if_pos hzy] at h2
            exact Bool.noConfusion h2
          · rw [if_neg hzy] at h2
            rw [if_neg (show ¬ z.toNat < x.toNat by omega)]
            by_cases hxz : x.toNat < z.toNat
            · rw [if_pos hxz]
            · rw [if_neg hxz]
              have hxy : ¬ x.toNat < y.toNat := by omega
              have hyz : ¬ y.toNat < z.toNat := by omega
              rw [if_neg hxy] at h1
              rw [if_neg hyz] at h2
              exact ih ys zs h1 h2

theorem mem_insertByName (x a : DirEntry) (l : List DirEntry) :
    a ∈ insertByName x l ↔ a = x ∨ a ∈ l := by
  induction l with
  | nil => simp [insertByName]
  | cons y ys ih =>
    simp only [insertByName]
    by_cases h : strLt x.name y.name = true
    · rw [if_pos h]
      simp [List.mem_cons]
    · rw [if_neg h]
      simp [List.mem_cons, ih]
      tauto

theorem pairwise_insertByName (x : DirEntry) (l : List DirEntry)
    (hl : l.Pairwise (fun a b => strLt b.name a.name = false)) :
    (insertByName x l).Pairwise (fun a b => strLt b.name a.name = false) := by
  induction l with
  | nil => simp [insertByName]
  | cons y ys ih =>
    rcases List.pairwise_cons.mp hl with ⟨hy, hys⟩
    simp only [insertByName]
    by_cases h : strLt x.name y.name = true
    · rw [if_pos h]
      refine List.pairwise_cons.mpr ⟨?_, hl⟩
      intro b hb
      rcases List.mem_cons.mp hb with rfl | hb
      · exact charListLt_asymm _ _ h
      · exact charListLt_le_trans _ _ _ (charListLt_asymm _ _ h) (hy b hb)
    · rw [if_neg h]
      refine List.pairwise_cons.mpr ⟨?_, ih hys⟩
      intro b hb
      rcases (mem_insertByName x b ys).mp hb with rfl | hb
      · rwa [Bool.not_eq_true] at h
      · exact hy b hb

theorem pairwise_sortEntries (l : List DirEntry) :
    (sortEntries l).Pairwise (fun a b => strLt b.name a.name = false) := by
  induction l with
  | nil => simp [sortEntries]
  | cons x xs ih => exact pairwise_insertByName x (sortEntries xs) ih

theorem runLoop_trace_sublist (cfg : Config) (l : List DirEntry)
    (st : RunState) (stats : Stats) :
    (runLoop cfg l st stats).2.Sublist (l.map DirEntry.name) := by
  induction l generalizing st stats with
  | nil => simp [runLoop]
  | cons e rest ih =>
    simp only [runLoop, List.map_cons]
    by_cases hd : e.isDir = true
    · rw [if_pos hd]
      exact (ih st stats).cons _
    · rw [if_neg hd]
      by_cases hext : goExt e.name ≠ ".csv"
      · rw [if_pos hext]
        exact (ih st stats).cons _
      · rw [if_neg hext]
        by_cases hskip :
            (!strStarts e.name cfg.insertF && !strStarts e.name cfg.updateF) = true
        · rw [if_pos hskip]
          exact (ih st stats).cons _
        · rw [if_neg hskip]
          cases hpf : processFile cfg (strStarts e.name cfg.insertF) st e.content with
          | error fe =>
            dsimp only
            exact (List.nil_sublist _).cons₂ _
          | ok p =>
            obtain ⟨cnt, st'⟩ := p
            dsimp only
            exact (ih _ _).cons₂ _

/-! ## C6: files are processed in byte-wise ascending filename order -/

/-- C6: for every directory listing, the sequence of filenames the
orchestrator hands to the file processor is weakly ascending in the
byte-wise string order (no later name is strictly below an earlier one);
in particular the scrambled listing `INS_2.csv, INS_1.csv, INS_10.csv`
is processed as `INS_1.csv, INS_10.csv, INS_2.csv` — byte-wise, not
numeric, order. -/
theorem run_processes_files_in_ascending_name_order
    (cfg : Config) (entries : List DirEntry) :
    (runOrder cfg entries).Pairwise (fun a b => strLt b a = false) ∧
    runOrder cfgStd entriesC6 = ["INS_1.csv", "INS_10.csv", "INS_2.csv"] := by
  constructor
  · have hmap : ((sortEntries entries).map DirEntry.name).Pairwise
        (fun a b => strLt b a = false) :=
      List.pairwise_map.mpr (pairwise_sortEntries entries)
    exact List.Pairwise.sublist
      (runLoop_trace_sublist cfg (sortEntries entries) RunState.init ⟨0, 0⟩) hmap
  · decide

/-! ## C7: a file failure aborts the run and discards statistics -/

/-- C7: when processing a classified `.csv` file fails (open failure or a
row-decode failure), the run loop — whatever statistics it has already
accumulated and whatever files remain — returns the failure wrapped with
the filename and no statistics; consequently `Run` itself returns that
error whenever such a file comes first in sorted order. Additionally, a
decode failure is reported with the 1-based line number at which the CSV
reader failed. -/
theorem run_aborts_on_file_failure (cfg : Config) (e : DirEntry)
    (fe : FileError)
    (hdir : e.isDir = false)
    (hext : goExt e.name = ".csv")
    (hcls : (strStarts e.name cfg.insertF || strStarts e.name cfg.updateF) = true)
    (hfail : ∀ st : RunState,
      processFile cfg (strStarts e.name cfg.insertF) st e.content = .error fe) :
    (∀ (rest : List DirEntry) (st : RunState) (stats : Stats),
      (runLoop cfg (e :: rest) st stats).1 = .error (.processFail e.name fe)) ∧
    (∀ (entries : List DirEntry) (rest : List DirEntry),
      sortEntries entries = e :: rest →
      Run cfg entries = .error (.processFail e.name fe)) ∧
    (∀ (isInsert : Bool) (goodRows : List (List String)) (cause : String)
        (rest' : List RowRead) (st : RunState) (rowNum errCount : Nat),
      processRows cfg isInsert
          (goodRows.map RowRead.row ++ .readErr cause :: rest') st rowNum errCount
        = .error (.decodeFail (rowNum + goodRows.length + 1) cause)) := by
  have hloop : ∀ (rest : List DirEntry) (st : RunState) (stats : Stats),
      (runLoop cfg (e :: rest) st stats).1 = .error (.processFail e.name fe) := by
    intro rest st stats
    simp only [runLoop]
    rw [if_neg (by rw [hdir]; exact Bool.noConfusion)]
    rw [if_neg (by rw [hext]; exact fun hne => hne rfl)]
    rw [if_neg (by
      rcases Bool.or_eq_true_iff.mp hcls with h | h
      · rw [h]; simp
      · rw [h]; simp)]
    rw [hfail st]
  refine ⟨hloop, ?_, ?_⟩
  · intro entries rest hsort
    unfold Run
    rw [hsort]
    exact hloop rest RunState.init ⟨0, 0⟩
  · intro isInsert goodRows cause rest' st rowNum errCount
    induction goodRows generalizing st rowNum errCount with
    | nil => simp [processRows]
    | cons g gs ih =>
      simp only [List.map_cons, List.cons_append, processRows, List.append_eq]
      rw [ih]
      have hn : rowNum + 1 + gs.length + 1 = rowNum + (g :: gs).length + 1 := by
        simp only [List.length_cons]
        omega
      rw [hn]

theorem run_aborts_on_file_failure_witness :
    Run cfgStd [⟨"INS_9.csv", false, .failure "permission denied"⟩,
                ⟨"INS_1.csv", false,
                 .opened [.row ["ID"], .row ["100"], .readErr "bad quote"]⟩]
      = .error (.processFail "INS_1.csv" (.decodeFail 3 "bad quote")) := by
  have h := run_aborts_on_file_failure cfgStd
    ⟨"INS_1.csv", false, .opened [.row ["ID"], .row ["100"], .readErr "bad quote"]⟩
    (.decodeFail 3 "bad quote") rfl (by decide) (by decide) (fun st => rfl)
  exact h.2.1 _ [⟨"INS_9.csv", false, .failure "permission denied"⟩] (by decide)

/-! ## C10: insert classification takes precedence over update -/

/-- C10: a `.csv` file whose name starts with both the configured insert
prefix and the configured update prefix is processed as an insert file:
its rows go through the insert rule chain (`processFile` is invoked with
the insert classification) and its error count is added to the insert
total, leaving the update total untouched. -/
theorem insert_classification_beats_update (cfg : Config) (e : DirEntry)
    (cnt : Nat) (st' : RunState)
    (hdir : e.isDir = false)
    (hext : goExt e.name = ".csv")
    (hins : strStarts e.name cfg.insertF = true)
    (hupd : strStarts e.name cfg.updateF = true)
    (hok : processFile cfg true RunState.init e.content = .ok (cnt, st')) :
    Run cfg [e] = .ok ⟨cnt, 0⟩ := by
  unfold Run
  have hs : sortEntries [e] = [e] := rfl
  rw [hs]
  simp only [runLoop]
  rw [if_neg (by rw [hdir]; exact Bool.noConfusion)]
  rw [if_neg (by rw [hext]; exact fun hne => hne rfl)]
  rw [if_neg (by rw [hins, hupd]; simp)]
  rw [hins, hok]
  simp [runLoop]

theorem insert_classification_beats_update_witness :
    Run cfgOverlap [⟨"INS_2.csv", false, .opened [.row ["ID"], .row ["-1"]]⟩]
      = .ok ⟨1, 0⟩ :=
  insert_classification_beats_update cfgOverlap
    ⟨"INS_2.csv", false, .opened [.row ["ID"], .row ["-1"]]⟩ 1 ⟨[], ["-1"]⟩
    rfl (by decide) (by decide) (by decide) (by decide)
